import Mathlib

/-!
Verification of the otto-cli git workflow tool.

This file gives a shallow embedding of the program in `src/index.js`
(the authoritative source; `src/bin/otto.js` is an older copy with the
same logic for the flows verified here) and proves the behavioural
claims about it.

The embedding has two layers:

* Pure string algorithms (`wrap`, the stash-list parser) are translated
  directly, working over `List Char`.  JavaScript's `split(/\s+/)` is
  modelled by `splitWsAux` (leading/trailing whitespace produces empty
  tokens, interior runs are merged, exactly as in JS); the JS `\s` class
  is modelled by the ASCII whitespace characters.
* The interactive flows (`flowRelease`, `flowUndo`, `flowBranch`,
  `flowSync`) shell out to git.  They are modelled as pure functions from
  an environment record (one field per operator prompt answer and per
  external-command success/failure oracle) and an abstract repository
  state to a trace of performed side-effecting commands plus the final
  state.  The git facade of the source (`sh`, `git.stash`,
  `git.stashSave`, `git.pop`) is additionally modelled directly over a
  command environment `ShEnv` in order to reason about error reporting.
-/

namespace Otto

/-! ## JavaScript whitespace splitting (the `/\s+/` regex and `split`) -/

/-- The ASCII characters matched by the JS `\s` character class. -/
def wsChar (c : Char) : Bool :=
  c == ' ' || c == '\t' || c == '\n' || c == '\r' ||
  c == Char.ofNat 11 || c == Char.ofNat 12

/-- Worker for JS `String.prototype.split(/\s+/)`.
`some cur` means we are inside a token with accumulated prefix `cur`;
`none` means the previous character was part of a whitespace run (a new
token, possibly empty at end of input, starts at the next non-ws char). -/
def splitWsAux : List Char → Option (List Char) → List (List Char)
  | [], none => [[]]
  | [], some cur => [cur]
  | c :: cs, none =>
      if wsChar c then splitWsAux cs none else splitWsAux cs (some [c])
  | c :: cs, some cur =>
      if wsChar c then cur :: splitWsAux cs none
      else splitWsAux cs (some (cur ++ [c]))

/-- JS `s.split(/\s+/)` (on the character list of `s`). -/
def splitWs (l : List Char) : List (List Char) :=
  splitWsAux l (some [])

/-- A token free of JS whitespace. -/
def noWs (w : List Char) : Bool :=
  w.all (fun c => !wsChar c)

theorem splitWsAux_ne_nil (l : List Char) (m : Option (List Char)) :
    splitWsAux l m ≠ [] := by
  induction l generalizing m with
  | nil => cases m <;> simp [splitWsAux]
  | cons c cs ih =>
      cases m with
      | none =>
          by_cases h : wsChar c <;> simp [splitWsAux, h] <;> exact ih _
      | some cur =>
          by_cases h : wsChar c <;> simp [splitWsAux, h]
          exact ih _

theorem splitWsAux_run (l : List Char) (cur : List Char) (h : noWs l = true) :
    splitWsAux l (some cur) = [cur ++ l] := by
  induction l generalizing cur with
  | nil => simp [splitWsAux]
  | cons c cs ih =>
      simp only [noWs, List.all_cons, Bool.and_eq_true, Bool.not_eq_true'] at h
      simp [splitWsAux, h.1, ih (cur ++ [c]) (by simpa [noWs] using h.2),
        List.append_assoc]

theorem splitWsAux_append_word (t l cur : List Char) (h : noWs t = true) :
    splitWsAux (t ++ l) (some cur) = splitWsAux l (some (cur ++ t)) := by
  induction t generalizing cur with
  | nil => simp
  | cons c cs ih =>
      simp only [noWs, List.all_cons, Bool.and_eq_true, Bool.not_eq_true'] at h
      simp [splitWsAux, h.1, ih _ (by simpa [noWs] using h.2),
        List.append_assoc]

theorem splitWsAux_none_start (c : Char) (cs : List Char)
    (h : wsChar c = false) :
    splitWsAux (c :: cs) none = splitWsAux (c :: cs) (some []) := by
  simp [splitWsAux, h]

/-- Shape of the splitter's output: in token mode the first result extends
`cur`, and all results before the last one (in skip mode) are non-empty. -/
theorem splitWsAux_shape (l : List Char) :
    ∀ m : Option (List Char),
      (∀ cur, m = some cur → ∃ t r, splitWsAux l m = (cur ++ t) :: r ∧
        ∀ x ∈ r.dropLast, x ≠ []) ∧
      (m = none → ∀ x ∈ (splitWsAux l m).dropLast, x ≠ []) := by
  induction l with
  | nil =>
      intro m
      constructor
      · rintro cur rfl
        exact ⟨[], [], by simp [splitWsAux], by simp⟩
      · rintro rfl
        simp [splitWsAux]
  | cons c cs ih =>
      intro m
      constructor
      · rintro cur rfl
        by_cases h : wsChar c
        · refine ⟨[], splitWsAux cs none, by simp [splitWsAux, h], ?_⟩
          exact (ih none).2 rfl
        · obtain ⟨t, r, he, hr⟩ := (ih (some (cur ++ [c]))).1 _ rfl
          exact ⟨[c] ++ t, r, by simp [splitWsAux, h, he, List.append_assoc], hr⟩
      · rintro rfl
        by_cases h : wsChar c
        · simpa [splitWsAux, h] using (ih none).2 rfl
        · obtain ⟨t, r, he, hr⟩ := (ih (some [c])).1 _ rfl
          simp only [splitWsAux, h, if_neg, Bool.false_eq_true, not_false_iff,
            ite_false, he]
          cases r with
          | nil => simp
          | cons y ys =>
              intro x hx
              rw [List.dropLast_cons₂] at hx
              rcases List.mem_cons.mp hx with hx | hx
              · subst hx; simp
              · exact hr x hx

/-- Every token produced by the splitter is whitespace-free (provided the
accumulated prefix is). -/
theorem splitWsAux_noWs (l : List Char) :
    ∀ m : Option (List Char), (∀ cur, m = some cur → noWs cur = true) →
      ∀ x ∈ splitWsAux l m, noWs x = true := by
  induction l with
  | nil =>
      intro m hm x hx
      cases m with
      | none => simp [splitWsAux] at hx; simp [hx, noWs]
      | some cur => simp [splitWsAux] at hx; simpa [hx] using hm cur rfl
  | cons c cs ih =>
      intro m hm x hx
      cases m with
      | none =>
          by_cases h : wsChar c
          · exact ih none (by simp) x (by simpa [splitWsAux, h] using hx)
          · refine ih (some [c]) ?_ x (by simpa [splitWsAux, h] using hx)
            rintro cur hc
            injection hc with hc
            simp [← hc, noWs, h]
      | some cur =>
          by_cases h : wsChar c
          · simp only [splitWsAux, h, ite_true, List.mem_cons] at hx
            rcases hx with rfl | hx
            · exact hm x rfl
            · exact ih none (by simp) x hx
          · refine ih (some (cur ++ [c])) ?_ x
              (by simpa [splitWsAux, h] using hx)
            rintro cur' hc
            injection hc with hc
            have := hm cur rfl
            simp [← hc, noWs, h] at this ⊢
            exact this

theorem splitWs_ne_nil (l : List Char) : splitWs l ≠ [] :=
  splitWsAux_ne_nil l (some [])

theorem splitWs_noWs (l : List Char) : ∀ x ∈ splitWs l, noWs x = true := by
  refine splitWsAux_noWs l (some []) ?_
  rintro cur hc
  injection hc with hc
  simp [← hc, noWs]

/-- "All interior elements are non-empty": any element with something
before it and something after it in the list is not `[]`. -/
def midsP (l : List (List Char)) : Prop :=
  ∀ pre x post, l = pre ++ x :: post → pre ≠ [] → post ≠ [] → x ≠ []

theorem midsP_of_tail (l : List (List Char)) (w : List Char)
    (h : midsP (w :: l)) : midsP l := by
  intro pre x post he hpre hpost
  exact h (w :: pre) x post (by simp [he]) (by simp) hpost

theorem midsP_append_left (a b : List (List Char)) (h : midsP (a ++ b)) :
    midsP a := by
  intro pre x post he hpre hpost
  refine h pre x (post ++ b) ?_ hpre (by simp [hpost])
  simp [he, List.append_assoc]

theorem midsP_append_right (a b : List (List Char)) (h : midsP (a ++ b)) :
    midsP b := by
  intro pre x post he hpre hpost
  refine h (a ++ pre) x post (by simp [he]) ?_ hpost
  simp [hpre]

theorem splitWs_midsP (l : List Char) : midsP (splitWs l) := by
  obtain ⟨t, r, he, hr⟩ := (splitWsAux_shape l (some [])).1 [] rfl
  intro pre x post hd hpre hpost
  rw [splitWs] at hd
  rw [hd] at he
  cases pre with
  | nil => exact absurd rfl hpre
  | cons p ps =>
      simp only [List.cons_append, List.cons.injEq] at he
      apply hr
      rw [← he.2]
      cases post with
      | nil => exact absurd rfl hpost
      | cons q qs =>
          rw [List.dropLast_append_of_ne_nil _ (by simp),
            List.dropLast_cons₂]
          simp

/-- `Glued ws out` : `out` is the words `ws` joined in order, with a single
whitespace character between consecutive words. -/
inductive Glued : List (List Char) → List Char → Prop where
  | single (w : List Char) : Glued [w] w
  | cons (w : List Char) (sep : Char) (rest : List (List Char))
      (out : List Char) : wsChar sep = true → Glued rest out →
      Glued (w :: rest) (w ++ sep :: out)

theorem Glued.ne_nil {ws : List (List Char)} {out : List Char}
    (h : Glued ws out) : ws ≠ [] := by
  cases h <;> simp

theorem Glued.head_decomp {ws : List (List Char)} {out : List Char}
    (h : Glued ws out) : ∃ t, out = ws.headI ++ t := by
  cases h with
  | single w => exact ⟨[], by simp⟩
  | cons w sep rest out hsep hg => exact ⟨sep :: out, by simp⟩

/-- Splitting a glued word list recovers exactly the words, provided the
words are whitespace-free and all interior words are non-empty. -/
theorem splitWs_glued {ws : List (List Char)} {out : List Char}
    (hg : Glued ws out) (hw : ∀ x ∈ ws, noWs x = true) (hm : midsP ws) :
    splitWs out = ws := by
  induction hg with
  | single w =>
      rw [splitWs, splitWsAux_run w [] (hw w (by simp))]
      simp
  | cons w sep rest out hsep hg ih =>
      rw [splitWs, splitWsAux_append_word w (sep :: out) []
        (hw w (by simp))]
      simp only [List.nil_append, splitWsAux, hsep, ite_true]
      have hrest : splitWsAux out none = rest := by
        cases rest with
        | nil => exact absurd hg.ne_nil (by simp)
        | cons r1 rs =>
            by_cases hr1 : r1 = []
            · subst hr1
              cases rs with
              | nil =>
                  cases hg with
                  | single => simp [splitWsAux]
                  | cons _ _ _ _ _ hg' => exact absurd hg'.ne_nil (by simp)
              | cons r2 rs' =>
                  exact absurd (hm [w] [] (r2 :: rs') (by simp) (by simp)
                    (by simp)) (by simp)
            · obtain ⟨t, hout⟩ := hg.head_decomp
              simp only [List.headI] at hout
              cases r1 with
              | nil => exact absurd rfl hr1
              | cons c1 r1' =>
                  have hc1 : wsChar c1 = false := by
                    have := hw (c1 :: r1') (by simp)
                    simp [noWs] at this
                    exact this.1
                  rw [hout, List.cons_append,
                    splitWsAux_none_start c1 (r1' ++ t) hc1,
                    ← List.cons_append, ← hout]
                  exact ih (fun x hx => hw x (by simp [hx]))
                    (midsP_of_tail ((c1 :: r1') :: rs) w hm)
      rw [hrest]

/-! ## The `wrap` helper (src/index.js lines 36-47)

```js
const wrap = (s, w = 60) => {
  if (!s) return "";
  return s
    .split(/\s+/)
    .reduce((acc, word) => {
      const last = acc[acc.length - 1];
      if (last && (last + word).length < w) acc[acc.length - 1] += " " + word;
      else acc.push(word);
      return acc;
    }, [])
    .join("\n");
};
```
-/

/-- One step of the `reduce` in `wrap`: `acc[acc.length-1]` is the last
line (`undefined`, i.e. `none`, when `acc` is empty; an empty string is
falsy, hence the `last ≠ []` conjunct). -/
def wrapStep (w : Nat) (acc : List (List Char)) (word : List Char) :
    List (List Char) :=
  match acc.getLast? with
  | none => acc ++ [word]
  | some last =>
      if last ≠ [] ∧ last.length + word.length < w then
        acc.dropLast ++ [last ++ ' ' :: word]
      else acc ++ [word]

/-- The `reduce(..., [])` of `wrap` applied to the word list. -/
def wrapLines (w : Nat) (words : List (List Char)) : List (List Char) :=
  words.foldl (wrapStep w) []

/-- `wrap` on character lists: split on `/\s+/`, fold, then `join("\n")`. -/
def wrapChars (s : List Char) (w : Nat) : List Char :=
  if s.isEmpty then []
  else List.intercalate ['\n'] (wrapLines w (splitWs s))

/-- The `wrap` helper of the source (JS default width 60). -/
def wrap (s : String) (w : Nat := 60) : String :=
  String.mk (wrapChars s.data w)

/-- A line of output: the words of one chunk joined by single spaces
(JS `acc[i] += " " + word`). -/
def lineOf (c : List (List Char)) : List Char :=
  List.intercalate [' '] c

theorem intercalate_cons_cons (s : List Char) (a b : List Char)
    (t : List (List Char)) :
    List.intercalate s (a :: b :: t) = a ++ s ++ List.intercalate s (b :: t) := by
  simp [List.intercalate, List.intersperse_cons_cons]

theorem intercalate_concat (s x : List Char) (c : List (List Char))
    (hc : c ≠ []) :
    List.intercalate s (c ++ [x]) = List.intercalate s c ++ s ++ x := by
  induction c with
  | nil => exact absurd rfl hc
  | cons y c' ih =>
      cases c' with
      | nil => simp [List.intercalate, List.intersperse_cons_cons]
      | cons z c'' =>
          have h1 : (y :: z :: c'') ++ [x] = y :: z :: (c'' ++ [x]) := by
            simp
          rw [h1, intercalate_cons_cons, ← List.cons_append, ih (by simp),
            intercalate_cons_cons]
          simp [List.append_assoc]

theorem wrapStep_getLast_none (w : Nat) (acc : List (List Char))
    (word : List Char) (h : acc.getLast? = none) :
    wrapStep w acc word = acc ++ [word] := by
  rw [wrapStep, h]

theorem wrapStep_getLast_some (w : Nat) (acc : List (List Char))
    (word last : List Char) (h : acc.getLast? = some last) :
    wrapStep w acc word =
      if last ≠ [] ∧ last.length + word.length < w then
        acc.dropLast ++ [last ++ ' ' :: word]
      else acc ++ [word] := by
  rw [wrapStep, h]

/-- Invariant of the `reduce`: the accumulated lines are exactly the
space-joins of a partition of the processed words into non-empty
consecutive chunks, and every line made of two or more words fits in `w`. -/
def WrapInv (w : Nat) (words : List (List Char))
    (acc : List (List Char)) : Prop :=
  ∃ chunks : List (List (List Char)),
    chunks.flatten = words ∧ (∀ c ∈ chunks, c ≠ []) ∧
    acc = chunks.map lineOf ∧
    ∀ c ∈ chunks, 2 ≤ c.length → (lineOf c).length ≤ w

theorem wrapStep_inv (w : Nat) (words : List (List Char))
    (acc : List (List Char)) (word : List Char)
    (h : WrapInv w words acc) :
    WrapInv w (words ++ [word]) (wrapStep w acc word) := by
  obtain ⟨chunks, hflat, hne, hacc, hlen⟩ := h
  rcases List.eq_nil_or_concat' chunks with hc | ⟨L, lst, hc⟩
  · subst hc
    simp only [List.map_nil] at hacc
    subst hacc
    refine ⟨[[word]], ?_, ?_, ?_, ?_⟩
    · simpa using hflat
    · simp
    · simp [wrapStep, lineOf, List.intercalate]
    · simp
  · subst hc
    have hlast : acc.getLast? = some (lineOf lst) := by
      simp [hacc]
    by_cases hcond : lineOf lst ≠ [] ∧ (lineOf lst).length + word.length < w
    · refine ⟨L ++ [lst ++ [word]], ?_, ?_, ?_, ?_⟩
      · simp only [List.flatten_append] at hflat ⊢
        simp [← hflat, List.append_assoc]
      · intro c hcm
        rcases List.mem_append.mp hcm with hcm | hcm
        · exact hne c (by simp [hcm])
        · simp only [List.mem_singleton] at hcm
          simp [hcm]
      · rw [wrapStep_getLast_some _ _ _ _ hlast, if_pos hcond, hacc]
        have hlstne : lst ≠ [] := hne lst (by simp)
        simp [List.dropLast_concat, lineOf, intercalate_concat _ _ _ hlstne]
      · intro c hcm h2
        rcases List.mem_append.mp hcm with hcm | hcm
        · exact hlen c (by simp [hcm]) h2
        · simp only [List.mem_singleton] at hcm
          subst hcm
          have hlstne : lst ≠ [] := hne lst (by simp)
          rw [lineOf, intercalate_concat _ _ _ hlstne]
          have := hcond.2
          simp only [lineOf] at this
          simp only [List.length_append, List.length_singleton]
          omega
    · refine ⟨(L ++ [lst]) ++ [[word]], ?_, ?_, ?_, ?_⟩
      · simp only [List.flatten_append] at hflat ⊢
        simp [← hflat]
      · intro c hcm
        rcases List.mem_append.mp hcm with hcm | hcm
        · exact hne c hcm
        · simp only [List.mem_singleton] at hcm
          simp [hcm]
      · rw [wrapStep_getLast_some _ _ _ _ hlast, if_neg hcond, hacc]
        simp [lineOf, List.intercalate]
      · intro c hcm h2
        rcases List.mem_append.mp hcm with hcm | hcm
        · exact hlen c hcm h2
        · simp only [List.mem_singleton] at hcm
          subst hcm
          simp at h2

theorem wrapFold_inv (w : Nat) (ws2 : List (List Char)) :
    ∀ (ws1 acc : List (List Char)), WrapInv w ws1 acc →
      WrapInv w (ws1 ++ ws2) (ws2.foldl (wrapStep w) acc) := by
  induction ws2 with
  | nil => intro ws1 acc h; simpa using h
  | cons word rest ih =>
      intro ws1 acc h
      have := ih (ws1 ++ [word]) (wrapStep w acc word) (wrapStep_inv _ _ _ _ h)
      simpa [List.append_assoc] using this

theorem wrapLines_inv (w : Nat) (words : List (List Char)) :
    WrapInv w words (wrapLines w words) := by
  have := wrapFold_inv w words [] [] ⟨[], by simp, by simp, by simp, by simp⟩
  simpa [wrapLines] using this

theorem lineOf_singleton (a : List Char) : lineOf [a] = a := by
  simp [lineOf, List.intercalate]

theorem lineOf_cons_cons (a b : List Char) (t : List (List Char)) :
    lineOf (a :: b :: t) = a ++ ' ' :: lineOf (b :: t) := by
  rw [lineOf, intercalate_cons_cons]
  simp [lineOf]

theorem glued_lineOf (c : List (List Char)) (hc : c ≠ []) :
    Glued c (lineOf c) := by
  induction c with
  | nil => exact absurd rfl hc
  | cons a t ih =>
      cases t with
      | nil =>
          rw [lineOf_singleton]
          exact Glued.single a
      | cons b t' =>
          rw [lineOf_cons_cons]
          exact Glued.cons a ' ' (b :: t') (lineOf (b :: t')) rfl
            (ih (by simp))

theorem glued_append {ws1 ws2 : List (List Char)} {o1 o2 : List Char}
    (h1 : Glued ws1 o1) (h2 : Glued ws2 o2) (sep : Char)
    (hsep : wsChar sep = true) :
    Glued (ws1 ++ ws2) (o1 ++ sep :: o2) := by
  induction h1 with
  | single w => exact Glued.cons w sep ws2 o2 hsep h2
  | cons w sp rest out hsp hg ih =>
      have he : (w ++ sp :: out) ++ sep :: o2 = w ++ sp :: (out ++ sep :: o2) := by
        simp [List.append_assoc]
      rw [List.cons_append, he]
      exact Glued.cons w sp (rest ++ ws2) (out ++ sep :: o2) hsp ih

theorem glued_chunks (chunks : List (List (List Char)))
    (h0 : chunks ≠ []) (hne : ∀ c ∈ chunks, c ≠ []) :
    Glued chunks.flatten
      (List.intercalate ['\n'] (chunks.map lineOf)) := by
  induction chunks with
  | nil => exact absurd rfl h0
  | cons c t ih =>
      cases t with
      | nil =>
          simp only [List.flatten, List.map, List.append_nil]
          have : List.intercalate ['\n'] [lineOf c] = lineOf c := by
            simp [List.intercalate]
          rw [this]
          simpa using glued_lineOf c (hne c (by simp))
      | cons c2 t' =>
          rw [List.map_cons, List.map_cons, intercalate_cons_cons,
            ← List.map_cons]
          have hflat : (c :: c2 :: t').flatten = c ++ (c2 :: t').flatten := by
            simp
          rw [hflat, List.append_assoc, List.singleton_append]
          exact glued_append (glued_lineOf c (hne c (by simp)))
            (ih (by simp) (fun x hx => hne x (by simp [hx]))) '\n' rfl

/-- Every chunk of the wrap partition of `splitWs s` inherits the interior
non-emptiness of `splitWs s`. -/
theorem midsP_of_flatten_mem {chunks : List (List (List Char))}
    {c : List (List Char)} (hc : c ∈ chunks)
    (h : midsP chunks.flatten) : midsP c := by
  obtain ⟨pre, post, rfl⟩ := List.append_of_mem hc
  have h1 : (pre ++ c :: post).flatten =
      pre.flatten ++ (c ++ post.flatten) := by
    simp
  rw [h1] at h
  exact midsP_append_left _ _ (midsP_append_right _ _ h)

theorem mem_lineOf {x : Char} (c : List (List Char)) (hx : x ∈ lineOf c) :
    x = ' ' ∨ ∃ wd ∈ c, x ∈ wd := by
  induction c with
  | nil => simp [lineOf, List.intercalate] at hx
  | cons a t ih =>
      cases t with
      | nil =>
          rw [lineOf_singleton] at hx
          exact Or.inr ⟨a, by simp, hx⟩
      | cons b t' =>
          rw [lineOf_cons_cons] at hx
          rcases List.mem_append.mp hx with hx | hx
          · exact Or.inr ⟨a, by simp, hx⟩
          · rcases List.mem_cons.mp hx with rfl | hx
            · exact Or.inl rfl
            · rcases ih hx with h | ⟨wd, hwd, hxw⟩
              · exact Or.inl h
              · exact Or.inr ⟨wd, by simp [hwd], hxw⟩

theorem nl_not_mem_lineOf (c : List (List Char))
    (hw : ∀ wd ∈ c, noWs wd = true) : '\n' ∉ lineOf c := by
  intro hx
  rcases mem_lineOf c hx with h | ⟨wd, hwd, hxw⟩
  · exact absurd h (by decide)
  · have := hw wd hwd
    simp only [noWs, List.all_eq_true] at this
    have := this _ hxw
    simp [wsChar] at this

/-- Number of (non-empty) whitespace-separated words on a line. -/
def numWords (l : List Char) : Nat :=
  ((splitWs l).filter (fun t => !t.isEmpty)).length

theorem wrapChars_spec (s : List Char) (w : Nat) (hs : s.isEmpty = false) :
    ∃ chunks : List (List (List Char)),
      chunks ≠ [] ∧ chunks.flatten = splitWs s ∧ (∀ c ∈ chunks, c ≠ []) ∧
      wrapChars s w = List.intercalate ['\n'] (chunks.map lineOf) ∧
      ∀ c ∈ chunks, 2 ≤ c.length → (lineOf c).length ≤ w := by
  obtain ⟨chunks, hflat, hne, hacc, hlen⟩ := wrapLines_inv w (splitWs s)
  refine ⟨chunks, ?_, hflat, hne, ?_, hlen⟩
  · intro hc
    subst hc
    simp only [List.flatten_nil] at hflat
    exact splitWs_ne_nil s hflat.symm
  · rw [wrapChars, if_neg (by simp [hs]), hacc]

theorem splitWs_wrapChars (s : List Char) (w : Nat) :
    splitWs (wrapChars s w) = splitWs s := by
  by_cases hs : s.isEmpty
  · have hnil : s = [] := by
      cases s with
      | nil => rfl
      | cons a t => simp [List.isEmpty] at hs
    subst hnil
    simp [wrapChars]
  · obtain ⟨chunks, h0, hflat, hne, hout, _⟩ :=
      wrapChars_spec s w (by simpa using hs)
    rw [hout]
    have hg := glued_chunks chunks h0 hne
    rw [hflat] at hg
    exact splitWs_glued hg (splitWs_noWs s) (splitWs_midsP s)

theorem wrapChars_width (s : List Char) (w : Nat) :
    ∀ line ∈ (wrapChars s w).splitOn '\n',
      2 ≤ numWords line → line.length ≤ w := by
  by_cases hs : s.isEmpty
  · have hnil : s = [] := by
      cases s with
      | nil => rfl
      | cons a t => simp [List.isEmpty] at hs
    subst hnil
    intro line hline h2
    have hw : wrapChars [] w = [] := by simp [wrapChars]
    rw [hw] at hline
    have hsp : ([] : List Char).splitOn '\n' = [[]] := rfl
    rw [hsp, List.mem_singleton] at hline
    subst hline
    exact absurd h2 (by decide)
  · obtain ⟨chunks, h0, hflat, hne, hout, hlen⟩ :=
      wrapChars_spec s w (by simpa using hs)
    intro line hline h2
    rw [hout] at hline
    have hmemw : ∀ c ∈ chunks, ∀ wd ∈ c, noWs wd = true := by
      intro c hc wd hwd
      apply splitWs_noWs s
      rw [← hflat]
      exact List.mem_flatten.mpr ⟨c, hc, hwd⟩
    have hnl : ∀ l ∈ chunks.map lineOf, '\n' ∉ l := by
      intro l hl
      obtain ⟨c, hc, rfl⟩ := List.mem_map.mp hl
      exact nl_not_mem_lineOf c (hmemw c hc)
    rw [List.splitOn_intercalate _ '\n' hnl (by simp [h0])] at hline
    obtain ⟨c, hc, rfl⟩ := List.mem_map.mp hline
    apply hlen c hc
    have hsw : splitWs (lineOf c) = c := by
      refine splitWs_glued (glued_lineOf c (hne c hc)) (hmemw c hc) ?_
      refine midsP_of_flatten_mem hc ?_
      rw [hflat]
      exact splitWs_midsP s
    calc 2 ≤ numWords (lineOf c) := h2
      _ = ((splitWs (lineOf c)).filter (fun t => !t.isEmpty)).length := rfl
      _ ≤ (splitWs (lineOf c)).length := List.length_filter_le _ _
      _ = c.length := by rw [hsw]

/-- C9: for every input string, splitting the output of `wrap` on
whitespace yields exactly the same sequence of words as splitting the
input on whitespace (nothing is reordered, dropped, or split), and every
output line holding two or more words is at most the width parameter in
length. -/
theorem wrap_word_sequence_and_width (s : String) (w : Nat) :
    splitWs (wrap s w).data = splitWs s.data ∧
    ∀ line ∈ (wrap s w).data.splitOn '\n',
      2 ≤ numWords line → line.length ≤ w :=
  ⟨splitWs_wrapChars s.data w, wrapChars_width s.data w⟩

/-- Witness for C9 at a concrete input: `wrap "ab cd ef" 6 = "ab cd\nef"`,
whose first line `"ab cd"` holds two words and fits in width 6. -/
theorem wrap_word_sequence_and_width_witness :
    splitWs (wrap "ab cd ef" 6).data = splitWs "ab cd ef".data ∧
    ("ab cd".data).length ≤ 6 :=
  ⟨(wrap_word_sequence_and_width "ab cd ef" 6).1,
   (wrap_word_sequence_and_width "ab cd ef" 6).2 "ab cd".data (by decide)
     (by decide)⟩

/-! ## The stash-list parser (src/index.js lines 130-140)

```js
stashList: () => {
  const out = sh("git stash list", true);
  if (!out) return [];
  // Output: stash@{0}: On main: message...
  return out.split("\n").map((line) => {
    const firstColon = line.indexOf(":");
    const ref = line.substring(0, firstColon);
    const msg = line.substring(firstColon + 1).trim();
    return { ref, msg };
  });
},
```
-/

/-- JS `indexOf` for a single character, as an `Option Nat`
(JS returns `-1` for `none`). -/
def jsIndexOf (l : List Char) (c : Char) : Option Nat :=
  match l with
  | [] => none
  | x :: xs => if x = c then some 0 else (jsIndexOf xs c).map (· + 1)

/-- JS `String.prototype.trim` (whitespace modelled by `wsChar`). -/
def jsTrim (l : List Char) : List Char :=
  ((l.dropWhile wsChar).reverse.dropWhile wsChar).reverse

/-- One record of `git.stashList`. -/
structure StashRec where
  ref : List Char
  msg : List Char
deriving DecidableEq

/-- The per-line parse of `git.stashList`.  When the line has no colon JS
computes `indexOf = -1`, so `substring(0, -1) = ""` (clamped) and
`substring(0)` is the whole line. -/
def parseStashLine (line : List Char) : StashRec :=
  match jsIndexOf line ':' with
  | some i => ⟨line.take i, jsTrim (line.drop (i + 1))⟩
  | none => ⟨[], jsTrim line⟩

/-- `git.stashList` applied to the (trimmed) output of `git stash list`. -/
def gitStashList (out : List Char) : List StashRec :=
  if out.isEmpty then []
  else ((String.mk out).splitOn "\n").map (fun l => parseStashLine l.data)

theorem jsIndexOf_first (pre suf : List Char) (c : Char)
    (h : ∀ x ∈ pre, x ≠ c) :
    jsIndexOf (pre ++ c :: suf) c = some pre.length := by
  induction pre with
  | nil => simp [jsIndexOf]
  | cons x xs ih =>
      have hx : x ≠ c := h x (by simp)
      have ih' := ih (fun y hy => h y (by simp [hy]))
      simp [jsIndexOf, hx, ih']

/-- C10: for every line containing a colon, the stash-list parser splits at
the first colon only: `ref` is the part before the first colon and `msg`
is the trimmed remainder, so later colons stay inside `msg`. -/
theorem parseStashLine_first_colon (pre suf : List Char)
    (h : ∀ x ∈ pre, x ≠ ':') :
    parseStashLine (pre ++ ':' :: suf) = ⟨pre, jsTrim suf⟩ := by
  rw [parseStashLine, jsIndexOf_first pre suf ':' h]
  have ht : (pre ++ ':' :: suf).take pre.length = pre := by
    simp
  have hd : (pre ++ ':' :: suf).drop (pre.length + 1) = suf := by
    rw [← List.drop_drop, List.drop_left, List.drop_one, List.tail_cons]
  show (⟨(pre ++ ':' :: suf).take pre.length,
      jsTrim ((pre ++ ':' :: suf).drop (pre.length + 1))⟩ : StashRec) =
    ⟨pre, jsTrim suf⟩
  rw [ht, hd]

/-- Witness for C10: a stash line whose message itself contains colons. -/
theorem parseStashLine_first_colon_witness :
    parseStashLine ("stash@".data ++ ['{', '0', '}'] ++ ':' ::
        " On main: fix: parser".data) =
      ⟨"stash@".data ++ ['{', '0', '}'], "On main: fix: parser".data⟩ := by
  have h := parseStashLine_first_colon ("stash@".data ++ ['{', '0', '}'])
    " On main: fix: parser".data (by decide)
  rw [List.append_assoc] at h
  rw [List.append_assoc]
  rw [h]
  decide

/-! ## Abstract repository state and the release flow
(src/index.js lines 502-633)

The flows shell out to git.  They are modelled as pure functions from a
configuration (the answers to the `group` prompts), an environment
(one oracle field per external-command success/failure and per further
prompt), and an abstract repository state, to a trace of the performed
side-effecting commands, the final state and an outcome.  The trace
records a command when its invocation succeeds.  `logToSheet`
(lines 233-244) swallows every failure, so the model records the payload
it would POST and nothing else. -/

/-- A side-effecting external command performed by a flow. -/
inductive Act where
  | fetch (target : String)
  | install
  | build
  | addAll
  | aiRequest
  | promptEdit
  | commit (msg : String)
  | versionBump (t : String)
  | push (force : Bool) (tags : Bool)
  | tagDelete (tag : String)
  | resetSoft
  | reset (mode : String) (target : String)
  | stashPush (msg : String)
  | stashPop
  | checkout (target : String)
  | checkoutNew (name : String)
  | pull (target : String)
  | setUpstream (branch : String)
  | openPr (url : String)
deriving DecidableEq

/-- The JSON body of the webhook POST in `logToSheet`. -/
structure SheetPayload where
  user : String
  branch : String
  type : String
  message : String
  description : String
deriving DecidableEq

/-- Abstract git repository state.  `commits` lists commit ids newest
first together with the change set each commit introduced; `tags` maps a
tag name to the id of the commit it points at (most recently created
first); `index` is the set of staged entries, `dirty` the unstaged
modifications, and `files` the (otherwise untouched) working-tree
contents. -/
structure RepoState where
  commits : List (Nat × List String)
  nextId : Nat
  tags : List (String × Nat)
  version : Nat
  index : List String
  dirty : List String
  files : List String
deriving DecidableEq

/-- `git add .` : stage everything; file contents on disk unchanged. -/
def doAdd (s : RepoState) : RepoState :=
  { s with index := s.index ++ s.dirty, dirty := [] }

/-- `git commit` : pack the staged entries into a new commit. -/
def doCommit (s : RepoState) : RepoState :=
  { s with commits := (s.nextId, s.index) :: s.commits,
           nextId := s.nextId + 1, index := [] }

/-- The tag name `npm version` / `pnpm version` creates. -/
def versionTag (n : Nat) : String :=
  "v" ++ toString n

/-- The change `npm version` commits. -/
def bumpChange : String :=
  "package.json"

/-- `npm version <type>` / `pnpm version <type>` : bump the version,
commit the manifest change and tag the new commit. -/
def doBump (s : RepoState) : RepoState :=
  { s with commits := (s.nextId, [bumpChange]) :: s.commits,
           nextId := s.nextId + 1,
           tags := (versionTag (s.version + 1), s.nextId) :: s.tags,
           version := s.version + 1 }

/-- `git describe --tags --abbrev=0` : the tag on the nearest tagged
commit reachable from `HEAD`. -/
def describeTags (s : RepoState) : Option String :=
  s.commits.findSome? (fun c => (s.tags.find? (fun p => p.2 == c.1)).map
    (fun p => p.1))

/-- `git tag -d <t>`. -/
def doTagDelete (t : String) (s : RepoState) : RepoState :=
  { s with tags := s.tags.filter (fun p => p.1 != t) }

/-- The release-configuration gathered by the `group` prompt. -/
structure ReleaseConfig where
  type : String
  push : String
  ok : Bool
deriving DecidableEq

/-- Environment of one release run: prompt answers and external-command
oracles.  `userMsg = none` models cancelling the commit-message prompt;
`webhookUrl`/`webhookFails` model `GOOGLE_SHEET_WEBHOOK_URL` and a
network failure of the webhook POST. -/
structure REnv where
  isRepo : Bool
  canceled : Bool
  fetchOk : Bool
  installOk : Bool
  hasBuild : Bool
  buildOk : Bool
  addOk : Bool
  hasApiKey : Bool
  aiOk : Bool
  aiDesc : String
  userMsg : Option String
  commitOk : Bool
  bumpOk : Bool
  pushOk : Bool
  webhookUrl : Option String
  webhookFails : Bool
  user : String
  branch : String
deriving DecidableEq

inductive ROutcome where
  | notRepo
  | canceled
  | pipelineFailed
  | died
  | abortedAtPrompt
  | deployed
  | rolledBack
deriving DecidableEq

/-- Result of one release run: commands performed, final repository
state, outcome, and the payload handed to `logToSheet` (if reached). -/
structure RRes where
  trace : List Act
  state : RepoState
  outcome : ROutcome
  sheetPayload : Option SheetPayload
deriving DecidableEq

/-- The commit phase (lines 568-590): with a non-empty staged diff,
call the AI, let the operator edit the message, commit; an AI failure or
a commit failure is caught and the flow continues with the default
`commitInfo`; cancelling the prompt returns from the flow (`none`). -/
def commitPhase (env : REnv) (s : RepoState) :
    List Act × RepoState × Option (String × String) :=
  if s.index.isEmpty then ([], s, some ("Manual/No Commit", "No changes"))
  else if !env.aiOk then
    ([Act.aiRequest], s, some ("Manual/No Commit", "No changes"))
  else
    match env.userMsg with
    | none => ([Act.aiRequest, Act.promptEdit], s, none)
    | some m =>
        if env.commitOk then
          ([Act.aiRequest, Act.promptEdit, Act.commit m], doCommit s,
            some (m, env.aiDesc))
        else
          ([Act.aiRequest, Act.promptEdit], s,
            some ("Manual/No Commit", "No changes"))

/-- Tag-deletion half of the rollback (lines 622-626): if a version bump
was requested, delete the most recent tag `git describe` reports (if any). -/
def rollbackTag (cfg : ReleaseConfig) (s : RepoState) :
    List Act × RepoState :=
  if cfg.type = "none" then ([], s)
  else
    match describeTags s with
    | some t => ([Act.tagDelete t], doTagDelete t s)
    | none => ([], s)

/-- `git reset --soft HEAD~1` (line 627): undo the newest commit, its
changes return to the index, working tree untouched; with no parent
commit the command fails and the failure is swallowed. -/
def rollbackReset (pre : List Act) (s : RepoState) : RRes :=
  match s.commits with
  | [] => ⟨pre, s, ROutcome.rolledBack, none⟩
  | c :: rest =>
      ⟨pre ++ [Act.resetSoft],
        { s with commits := rest, index := c.2 ++ s.index },
        ROutcome.rolledBack, none⟩

/-- The rollback of a failed push (lines 620-632): delete the most recent
tag (when a bump was requested) and soft-reset one commit; every failure
inside the rollback is ignored. -/
def rollback (cfg : ReleaseConfig) (s : RepoState) (pre : List Act) : RRes :=
  rollbackReset (pre ++ (rollbackTag cfg s).1) (rollbackTag cfg s).2

/-- Push and webhook (lines 604-619), entered after the bump succeeded
(or was skipped). -/
def pushAfterBump (cfg : ReleaseConfig) (env : REnv) (s : RepoState)
    (bacts : List Act) (cmsg cdesc : String) : RRes :=
  if env.pushOk then
    ⟨bacts ++ [Act.push (cfg.push == "force") true], s, ROutcome.deployed,
      some ⟨env.user, env.branch, cfg.type, cmsg, cdesc⟩⟩
  else rollback cfg s bacts

/-- The bump-push-report try/catch (lines 599-632). -/
def pushPhase (cfg : ReleaseConfig) (env : REnv) (s : RepoState)
    (cmsg cdesc : String) : RRes :=
  if cfg.type = "none" then pushAfterBump cfg env s [] cmsg cdesc
  else if env.bumpOk then
    pushAfterBump cfg env (doBump s) [Act.versionBump cfg.type] cmsg cdesc
  else rollback cfg s []

/-- The whole `flowRelease` (lines 502-633), except that the webhook URL
check of `logToSheet` is applied afterwards (`sheetPosts`): this core
never reads `webhookUrl` or `webhookFails`. -/
def flowReleaseCore (cfg : ReleaseConfig) (env : REnv) (s0 : RepoState) :
    RRes :=
  if !env.isRepo then ⟨[], s0, ROutcome.notRepo, none⟩
  else if env.canceled || !cfg.ok then ⟨[], s0, ROutcome.canceled, none⟩
  else if !env.fetchOk then ⟨[], s0, ROutcome.pipelineFailed, none⟩
  else if !env.installOk then
    ⟨[Act.fetch "origin main"], s0, ROutcome.pipelineFailed, none⟩
  else if env.hasBuild && !env.buildOk then
    ⟨[Act.fetch "origin main", Act.install], s0, ROutcome.pipelineFailed,
      none⟩
  else if !env.addOk then
    ⟨[Act.fetch "origin main", Act.install] ++
      (if env.hasBuild then [Act.build] else []), s0,
      ROutcome.pipelineFailed, none⟩
  else
    let pre := [Act.fetch "origin main", Act.install] ++
      (if env.hasBuild then [Act.build] else []) ++ [Act.addAll]
    let s1 := doAdd s0
    if !s1.index.isEmpty && !env.hasApiKey then
      ⟨pre, s1, ROutcome.died, none⟩
    else
      match commitPhase env s1 with
      | (cacts, s2, none) => ⟨pre ++ cacts, s2, ROutcome.abortedAtPrompt, none⟩
      | (cacts, s2, some (cmsg, cdesc)) =>
          let pr := pushPhase cfg env s2 cmsg cdesc
          ⟨pre ++ cacts ++ pr.trace, pr.state, pr.outcome, pr.sheetPayload⟩

/-- `logToSheet` (lines 233-244): POST only when the URL is configured;
every failure of the POST itself is swallowed. -/
def sheetPosts (env : REnv) (r : RRes) : List SheetPayload :=
  match env.webhookUrl, r.sheetPayload with
  | some _, some p => [p]
  | _, _ => []

/-- `flowRelease`: the run result together with the webhook POSTs made. -/
def flowRelease (cfg : ReleaseConfig) (env : REnv) (s0 : RepoState) :
    RRes × List SheetPayload :=
  let r := flowReleaseCore cfg env s0
  (r, sheetPosts env r)

def isCommitA : Act → Bool
  | Act.commit _ => true
  | _ => false

def isAiA : Act → Bool
  | Act.aiRequest => true
  | _ => false

def isPromptA : Act → Bool
  | Act.promptEdit => true
  | _ => false

def isBumpA : Act → Bool
  | Act.versionBump _ => true
  | _ => false

def isPushA : Act → Bool
  | Act.push _ _ => true
  | _ => false

theorem describeTags_doBump (s : RepoState) :
    describeTags (doBump s) = some (versionTag (s.version + 1)) := by
  simp [describeTags, doBump, List.findSome?_cons]

theorem filter_bne_eq_self (t : String) (tags : List (String × Nat))
    (h : t ∉ tags.map Prod.fst) :
    tags.filter (fun p => p.1 != t) = tags := by
  refine List.filter_eq_self.mpr ?_
  intro p hp
  refine bne_iff_ne.mpr ?_
  intro he
  exact h (he ▸ List.mem_map_of_mem Prod.fst hp)

theorem rollbackReset_of_cons (pre : List Act) (s : RepoState)
    (c : Nat × List String) (rest : List (Nat × List String))
    (h : s.commits = c :: rest) :
    rollbackReset pre s =
      ⟨pre ++ [Act.resetSoft],
        { s with commits := rest, index := c.2 ++ s.index },
        ROutcome.rolledBack, none⟩ := by
  rw [rollbackReset, h]

/-- C1: if the final push fails after a version bump occurred, the
rollback deletes exactly the tag the bump created (restoring the tag set
to what it was before the bump), undoes the bump commit with a soft
reset (`HEAD`'s most recent commit), and leaves the working-tree
contents unchanged. -/
theorem release_rollback_after_bump (cfg : ReleaseConfig) (env : REnv)
    (s : RepoState) (cmsg cdesc : String)
    (htype : cfg.type ≠ "none") (hbump : env.bumpOk = true)
    (hpush : env.pushOk = false)
    (hfresh : versionTag (s.version + 1) ∉ s.tags.map Prod.fst) :
    (pushPhase cfg env s cmsg cdesc).outcome = ROutcome.rolledBack ∧
    (pushPhase cfg env s cmsg cdesc).state.tags = s.tags ∧
    versionTag (s.version + 1) ∉
      ((pushPhase cfg env s cmsg cdesc).state.tags.map Prod.fst) ∧
    (pushPhase cfg env s cmsg cdesc).state.commits = s.commits ∧
    (pushPhase cfg env s cmsg cdesc).state.files = s.files ∧
    (pushPhase cfg env s cmsg cdesc).trace =
      [Act.versionBump cfg.type,
       Act.tagDelete (versionTag (s.version + 1)), Act.resetSoft] := by
  have htag : rollbackTag cfg (doBump s) =
      ([Act.tagDelete (versionTag (s.version + 1))],
        doTagDelete (versionTag (s.version + 1)) (doBump s)) := by
    rw [rollbackTag, if_neg htype, describeTags_doBump]
  have hdel : doTagDelete (versionTag (s.version + 1)) (doBump s) =
      { doBump s with tags := s.tags } := by
    rw [doTagDelete]
    have : (doBump s).tags =
        (versionTag (s.version + 1), s.nextId) :: s.tags := rfl
    rw [this, List.filter_cons]
    simp only [bne_self_eq_false, Bool.false_eq_true, if_false]
    rw [filter_bne_eq_self _ _ hfresh]
  have hcomm : ({ doBump s with tags := s.tags } : RepoState).commits =
      (s.nextId, [bumpChange]) :: s.commits := rfl
  rw [pushPhase, if_neg htype, if_pos hbump, pushAfterBump,
    if_neg (by simp [hpush]), rollback, htag, hdel,
    rollbackReset_of_cons _ _ _ _ hcomm]
  refine ⟨rfl, rfl, ?_, rfl, rfl, rfl⟩
  simpa using hfresh

def c1Env : REnv :=
  ⟨true, false, true, true, false, true, true, true, true, "d",
    some "feat: x", true, true, false, some "url", false, "u", "main"⟩

def c1State : RepoState :=
  ⟨[(0, ["init"])], 1, [("v1", 0)], 1, [], [], ["src/a.js"]⟩

/-- Witness for C1 at a concrete failed-push run. -/
theorem release_rollback_after_bump_witness :
    (pushPhase ⟨"patch", "safe", true⟩ c1Env c1State "m" "d").outcome =
      ROutcome.rolledBack ∧
    (pushPhase ⟨"patch", "safe", true⟩ c1Env c1State "m" "d").state.tags =
      c1State.tags ∧
    versionTag (c1State.version + 1) ∉
      ((pushPhase ⟨"patch", "safe", true⟩ c1Env c1State "m"
        "d").state.tags.map Prod.fst) ∧
    (pushPhase ⟨"patch", "safe", true⟩ c1Env c1State "m"
      "d").state.commits = c1State.commits ∧
    (pushPhase ⟨"patch", "safe", true⟩ c1Env c1State "m"
      "d").state.files = c1State.files ∧
    (pushPhase ⟨"patch", "safe", true⟩ c1Env c1State "m" "d").trace =
      [Act.versionBump "patch",
       Act.tagDelete (versionTag (c1State.version + 1)), Act.resetSoft] :=
  release_rollback_after_bump ⟨"patch", "safe", true⟩ c1Env c1State "m" "d"
    (by decide) (by decide) (by decide) (by decide)

theorem pushPhase_no_commit_acts (cfg : ReleaseConfig) (env : REnv)
    (s : RepoState) (cm cd : String) :
    (pushPhase cfg env s cm cd).trace.filter isCommitA = [] ∧
    (pushPhase cfg env s cm cd).trace.filter isAiA = [] ∧
    (pushPhase cfg env s cm cd).trace.filter isPromptA = [] := by
  unfold pushPhase pushAfterBump rollback rollbackReset rollbackTag
  repeat' split
  all_goals simp_all [isCommitA, isAiA, isPromptA]

/-- C2: if the staged diff is empty after staging, the commit step is
skipped entirely: no commit is created, no AI message request is made and
no operator edit happens. -/
theorem release_empty_diff_skips_commit (cfg : ReleaseConfig) (env : REnv)
    (s0 : RepoState)
    (h1 : env.isRepo = true) (h2 : env.canceled = false)
    (h3 : cfg.ok = true) (h4 : env.fetchOk = true)
    (h5 : env.installOk = true) (h6 : env.hasBuild = true → env.buildOk = true)
    (h7 : env.addOk = true) (h8 : (doAdd s0).index = []) :
    (flowRelease cfg env s0).1.trace.filter isCommitA = [] ∧
    (flowRelease cfg env s0).1.trace.filter isAiA = [] ∧
    (flowRelease cfg env s0).1.trace.filter isPromptA = [] := by
  have hcp : commitPhase env (doAdd s0) =
      ([], doAdd s0, some ("Manual/No Commit", "No changes")) := by
    rw [commitPhase, if_pos (by simp [h8])]
  have hcore : flowReleaseCore cfg env s0 =
      ⟨([Act.fetch "origin main", Act.install] ++
          (if env.hasBuild then [Act.build] else []) ++ [Act.addAll]) ++
          [] ++ (pushPhase cfg env (doAdd s0) "Manual/No Commit"
            "No changes").trace,
        (pushPhase cfg env (doAdd s0) "Manual/No Commit"
          "No changes").state,
        (pushPhase cfg env (doAdd s0) "Manual/No Commit"
          "No changes").outcome,
        (pushPhase cfg env (doAdd s0) "Manual/No Commit"
          "No changes").sheetPayload⟩ := by
    rw [flowReleaseCore, if_neg (by simp [h1]),
      if_neg (by simp [h2, h3]), if_neg (by simp [h4]),
      if_neg (by simp [h5]), if_neg ?hb, if_neg (by simp [h7])]
    case hb =>
      cases hB : env.hasBuild with
      | false => simp
      | true => simp [h6 hB]
    rw [if_neg (by simp [h8]), hcp]
  obtain ⟨hc, ha, hp⟩ := pushPhase_no_commit_acts cfg env (doAdd s0)
    "Manual/No Commit" "No changes"
  rw [flowRelease]
  refine ⟨?_, ?_, ?_⟩ <;>
    · show (flowReleaseCore cfg env s0).trace.filter _ = []
      rw [hcore]
      cases hB : env.hasBuild <;>
        simp [hB, List.filter_append, hc, ha, hp, isCommitA, isAiA,
          isPromptA]

def c2Env : REnv :=
  ⟨true, false, true, true, false, true, true, true, true, "d",
    some "feat: x", true, true, true, some "url", false, "u", "main"⟩

def c2State : RepoState :=
  ⟨[(0, ["init"])], 1, [], 0, [], [], ["src/a.js"]⟩

/-- Witness for C2 at a concrete clean-tree run. -/
theorem release_empty_diff_skips_commit_witness :
    (flowRelease ⟨"patch", "safe", true⟩ c2Env c2State).1.trace.filter
      isCommitA = [] ∧
    (flowRelease ⟨"patch", "safe", true⟩ c2Env c2State).1.trace.filter
      isAiA = [] ∧
    (flowRelease ⟨"patch", "safe", true⟩ c2Env c2State).1.trace.filter
      isPromptA = [] :=
  release_empty_diff_skips_commit ⟨"patch", "safe", true⟩ c2Env c2State
    (by decide) (by decide) (by decide) (by decide) (by decide)
    (by decide) (by decide) (by decide)

def c4Env : REnv :=
  ⟨true, false, true, true, false, true, true, true, true, "d",
    some "feat: x", true, true, true, none, false, "u", "main"⟩

def c4State : RepoState :=
  ⟨[(0, ["init"])], 1, [], 0, [], ["src/a.js"], ["src/a.js"]⟩

/-- Counterexample to C4 as stated: a release run with
`releaseType=patch`, `pushMode=safe`, a non-empty staged diff and a
successful push (the deploy outcome, with exactly one safe push with
tags in the trace) in which no webhook POST occurs at all, because
`GOOGLE_SHEET_WEBHOOK_URL` is not configured (`logToSheet` returns
immediately). -/
theorem release_patch_safe_no_webhook_counterexample :
    (doAdd c4State).index ≠ [] ∧
    (flowRelease ⟨"patch", "safe", true⟩ c4Env c4State).1.outcome =
      ROutcome.deployed ∧
    (flowRelease ⟨"patch", "safe", true⟩ c4Env c4State).1.trace.filter
      isPushA = [Act.push false true] ∧
    (flowRelease ⟨"patch", "safe", true⟩ c4Env c4State).1.trace.filter
      isBumpA = [Act.versionBump "patch"] ∧
    (flowRelease ⟨"patch", "safe", true⟩ c4Env c4State).2 = [] := by
  decide

/-- C4 as amended: with `releaseType=patch`, `pushMode=safe`, a
non-empty staged diff, a successful AI message request, an
operator-confirmed message, successful commit, bump and push, and a
configured webhook URL, exactly one version bump, one commit, one safe
push with tags and one webhook POST containing that commit's subject
line occur. -/
theorem release_patch_safe_happy (env : REnv) (s0 : RepoState) (m u : String)
    (h1 : env.isRepo = true) (h2 : env.canceled = false)
    (h4 : env.fetchOk = true) (h5 : env.installOk = true)
    (h6 : env.hasBuild = true → env.buildOk = true) (h7 : env.addOk = true)
    (h8 : ¬(doAdd s0).index.isEmpty) (h9 : env.hasApiKey = true)
    (h10 : env.aiOk = true) (h11 : env.userMsg = some m)
    (h12 : env.commitOk = true) (h13 : env.bumpOk = true)
    (h14 : env.pushOk = true) (h15 : env.webhookUrl = some u) :
    (flowRelease ⟨"patch", "safe", true⟩ env s0).1.trace.filter isBumpA =
      [Act.versionBump "patch"] ∧
    (flowRelease ⟨"patch", "safe", true⟩ env s0).1.trace.filter isCommitA =
      [Act.commit m] ∧
    (flowRelease ⟨"patch", "safe", true⟩ env s0).1.trace.filter isPushA =
      [Act.push false true] ∧
    (flowRelease ⟨"patch", "safe", true⟩ env s0).2 =
      [⟨env.user, env.branch, "patch", m, env.aiDesc⟩] ∧
    (flowRelease ⟨"patch", "safe", true⟩ env s0).1.outcome =
      ROutcome.deployed := by
  have hcp : commitPhase env (doAdd s0) =
      ([Act.aiRequest, Act.promptEdit, Act.commit m], doCommit (doAdd s0),
        some (m, env.aiDesc)) := by
    rw [commitPhase, if_neg (by simpa using h8), if_neg (by simp [h10]),
      h11]
    simp [h12]
  have hpp : pushPhase ⟨"patch", "safe", true⟩ env (doCommit (doAdd s0))
      m env.aiDesc =
      ⟨[Act.versionBump "patch", Act.push false true],
        doBump (doCommit (doAdd s0)), ROutcome.deployed,
        some ⟨env.user, env.branch, "patch", m, env.aiDesc⟩⟩ := by
    rw [pushPhase, if_neg (by decide), if_pos h13, pushAfterBump,
      if_pos h14]
    rfl
  have hcore : flowReleaseCore ⟨"patch", "safe", true⟩ env s0 =
      ⟨([Act.fetch "origin main", Act.install] ++
          (if env.hasBuild then [Act.build] else []) ++ [Act.addAll]) ++
          [Act.aiRequest, Act.promptEdit, Act.commit m] ++
          [Act.versionBump "patch", Act.push false true],
        doBump (doCommit (doAdd s0)), ROutcome.deployed,
        some ⟨env.user, env.branch, "patch", m, env.aiDesc⟩⟩ := by
    rw [flowReleaseCore, if_neg (by simp [h1]),
      if_neg (by simp [h2]), if_neg (by simp [h4]),
      if_neg (by simp [h5]), if_neg ?hb, if_neg (by simp [h7]),
      if_neg (by simp [h8, h9]), hcp]
    case hb =>
      cases hB : env.hasBuild with
      | false => simp
      | true => simp [h6 hB]
    dsimp only
    rw [hpp]
  constructor
  · show (flowReleaseCore _ env s0).trace.filter isBumpA = _
    rw [hcore]
    cases hB : env.hasBuild <;>
      simp [hB, List.filter_append, isBumpA]
  constructor
  · show (flowReleaseCore _ env s0).trace.filter isCommitA = _
    rw [hcore]
    cases hB : env.hasBuild <;>
      simp [hB, List.filter_append, isCommitA]
  constructor
  · show (flowReleaseCore _ env s0).trace.filter isPushA = _
    rw [hcore]
    cases hB : env.hasBuild <;>
      simp [hB, List.filter_append, isPushA]
  constructor
  · show sheetPosts env (flowReleaseCore _ env s0) = _
    rw [hcore, sheetPosts, h15]
  · show (flowReleaseCore _ env s0).outcome = _
    rw [hcore]

def c4EnvW : REnv :=
  ⟨true, false, true, true, false, true, true, true, true, "d",
    some "feat: x", true, true, true, some "url", false, "u", "main"⟩

/-- Witness for the amended C4 at a concrete happy-path run. -/
theorem release_patch_safe_happy_witness :
    (flowRelease ⟨"patch", "safe", true⟩ c4EnvW c4State).1.trace.filter
      isBumpA = [Act.versionBump "patch"] ∧
    (flowRelease ⟨"patch", "safe", true⟩ c4EnvW c4State).1.trace.filter
      isCommitA = [Act.commit "feat: x"] ∧
    (flowRelease ⟨"patch", "safe", true⟩ c4EnvW c4State).1.trace.filter
      isPushA = [Act.push false true] ∧
    (flowRelease ⟨"patch", "safe", true⟩ c4EnvW c4State).2 =
      [⟨c4EnvW.user, c4EnvW.branch, "patch", "feat: x", c4EnvW.aiDesc⟩] ∧
    (flowRelease ⟨"patch", "safe", true⟩ c4EnvW c4State).1.outcome =
      ROutcome.deployed :=
  release_patch_safe_happy c4EnvW c4State "feat: x" "url"
    (by decide) (by decide) (by decide) (by decide) (by decide)
    (by decide) (by decide) (by decide) (by decide) (by decide)
    (by decide) (by decide) (by decide) (by decide)

/-- C7: a failure of the webhook POST — a network error
(`webhookFails`) or an unset webhook URL — is swallowed by `logToSheet`
and never changes the trace of performed commands, the final repository
state or the outcome of a release run (in particular it never fails the
pipeline and never triggers the rollback); flipping the network-failure
flag alone changes nothing at all. -/
theorem webhook_failure_never_affects_release (cfg : ReleaseConfig)
    (env : REnv) (s0 : RepoState) (b : Bool) (u : Option String) :
    (flowRelease cfg { env with webhookFails := b, webhookUrl := u }
        s0).1 = (flowRelease cfg env s0).1 ∧
    flowRelease cfg { env with webhookFails := b } s0 =
      flowRelease cfg env s0 :=
  ⟨rfl, rfl⟩

/-! ## The undo/rollback flow (src/index.js lines 324-392) -/

/-- One record of `git.log` (`hash|subject|author|relative-time`). -/
structure LogEntry where
  hash : String
  msg : String
  author : String
  time : String
deriving DecidableEq

/-- Environment of one undo run: `history` is the parsed `git log`
output (newest first), `target`/`mode`/`hardConfirm` are the prompt
answers (`none` = cancelled), `resetOk` the `git reset` oracle. -/
structure UndoEnv where
  isRepo : Bool
  history : List LogEntry
  target : Option String
  mode : Option String
  hardConfirm : Option Bool
  resetOk : Bool
deriving DecidableEq

inductive UOutcome where
  | notRepo
  | emptyHistory
  | canceledSelect
  | currentNoop
  | canceledMode
  | hardDeclined
  | resetDone
  | resetFailed
deriving DecidableEq

/-- `flowUndo`: selecting `history[0]` (the current commit) is a no-op;
a `--hard` reset needs the extra confirmation (`!safe || isCancel(safe)`
returns). -/
def flowUndo (env : UndoEnv) : List Act × UOutcome :=
  if !env.isRepo then ([], UOutcome.notRepo)
  else
    match env.history with
    | [] => ([], UOutcome.emptyHistory)
    | h0 :: _ =>
        match env.target with
        | none => ([], UOutcome.canceledSelect)
        | some t =>
            if t = h0.hash then ([], UOutcome.currentNoop)
            else
              match env.mode with
              | none => ([], UOutcome.canceledMode)
              | some md =>
                  if md = "--hard" ∧ env.hardConfirm ≠ some true then
                    ([], UOutcome.hardDeclined)
                  else
                    ([Act.reset md t],
                      if env.resetOk then UOutcome.resetDone
                      else UOutcome.resetFailed)

/-- C5: selecting the currently-checked-out commit performs no reset (no
command is run at all), and a `--hard` reset can only appear in the
trace if the operator explicitly confirmed the destructive reset. -/
theorem undo_current_noop_and_hard_confirmed (env : UndoEnv) :
    (∀ h0 rest, env.history = h0 :: rest → env.target = some h0.hash →
      (flowUndo env).1 = []) ∧
    (∀ md t, Act.reset md t ∈ (flowUndo env).1 → md = "--hard" →
      env.hardConfirm = some true) := by
  constructor
  · intro h0 rest hh ht
    unfold flowUndo
    repeat' split
    all_goals simp_all
  · intro md t hmem hmd
    unfold flowUndo at hmem
    repeat' split at hmem
    all_goals simp_all

def c5EnvA : UndoEnv :=
  ⟨true, [⟨"abc1234", "feat: x", "u", "now"⟩,
          ⟨"def5678", "fix: y", "u", "1 day ago"⟩],
    some "abc1234", some "--hard", some false, true⟩

def c5EnvB : UndoEnv :=
  ⟨true, [⟨"abc1234", "feat: x", "u", "now"⟩,
          ⟨"def5678", "fix: y", "u", "1 day ago"⟩],
    some "def5678", some "--hard", some true, true⟩

/-- Witness for C5: selecting the current commit runs nothing, and a
performed hard reset implies the confirmation was given. -/
theorem undo_current_noop_and_hard_confirmed_witness :
    (flowUndo c5EnvA).1 = [] ∧ c5EnvB.hardConfirm = some true :=
  ⟨(undo_current_noop_and_hard_confirmed c5EnvA).1
      ⟨"abc1234", "feat: x", "u", "now"⟩
      [⟨"def5678", "fix: y", "u", "1 day ago"⟩] rfl rfl,
   (undo_current_noop_and_hard_confirmed c5EnvB).2 "--hard" "def5678"
      (by decide) rfl⟩

/-! ## The branch flow (src/index.js lines 635-732) -/

/-- Abstract state for branch switching: current branch, whether the
working tree is dirty, and the stash stack (newest first). -/
structure BranchState where
  branch : String
  dirty : Bool
  stashes : List String
deriving DecidableEq

structure BranchEnv where
  isRepo : Bool
  action : Option String
  target : Option String
  stashPushOk : Bool
  checkoutOk : Bool
  popOk : Bool
  fetchOk : Bool
  pullOk : Bool
  newName : Option String
  createOk : Bool
  originUrl : String
deriving DecidableEq

inductive BOutcome where
  | notRepo
  | canceledAction
  | canceledSelect
  | checkoutFailed
  | popConflict
  | switched
  | updateFailed
  | updated
  | createFailed
  | created
  | prOpened
  | noAction
deriving DecidableEq

def autoStashMsg : String := "Otto Auto-Switch"

/-- `git.stash` (lines 113-119) at the state level: on a dirty tree the
underlying `git stash push` is invoked with `ignore = true` and the
helper reports `true` regardless of that push's result (`pushOk`); a
stash is created (and the tree cleaned) only when the push actually
succeeded.  On a clean tree nothing happens and it reports `false`. -/
def autoStash (pushOk : Bool) (s : BranchState) : Bool × BranchState :=
  if s.dirty then
    (true,
      if pushOk then
        { s with dirty := false, stashes := autoStashMsg :: s.stashes }
      else s)
  else (false, s)

/-- `git.pop` (lines 142-150) at the state level: a clean pop drops the
newest stash and the changes return to the tree; a conflicting pop
applies the changes but keeps the stash entry and reports `false`. -/
def popStash (popOk : Bool) (s : BranchState) : Bool × BranchState :=
  match s.stashes with
  | [] => (false, s)
  | _ :: rest =>
      if popOk then (true, { s with stashes := rest, dirty := true })
      else (false, { s with dirty := true })

/-- JS `String.prototype.replace` with a string pattern: replace the
first occurrence only. -/
def replaceOnce : List Char → List Char → List Char → List Char
  | [], _, _ => []
  | c :: cs, pat, rep =>
      if pat.isPrefixOf (c :: cs) then rep ++ (c :: cs).drop pat.length
      else c :: replaceOnce cs pat rep

/-- The PR URL computed in the `pr` branch (lines 720-731). -/
def prUrl (origin curr : String) : String :=
  String.mk (replaceOnce (replaceOnce (replaceOnce origin.data
    ".git".data "".data) ":".data "/".data) "git@".data
    "https://".data) ++ "/pull/new/" ++ curr

/-- `flowBranch`: the switch path invokes the auto-stash on a dirty tree
(`Act.stashPush` records the invocation; since `git.stash` passes
`ignore = true`, a failed push is swallowed and only the state shows
whether a stash was created), checks out, and pops only if the checkout
succeeded and the helper reported a stash; the update/create/pr paths as
in the source. -/
def flowBranch (env : BranchEnv) (s0 : BranchState) :
    List Act × BranchState × BOutcome :=
  if !env.isRepo then ([], s0, BOutcome.notRepo)
  else
    match env.action with
    | none => ([], s0, BOutcome.canceledAction)
    | some act =>
        if act = "switch" then
          match env.target with
          | none => ([], s0, BOutcome.canceledSelect)
          | some t =>
              let st := autoStash env.stashPushOk s0
              let tr0 := if st.1 then [Act.stashPush autoStashMsg] else []
              if !env.checkoutOk then (tr0, st.2, BOutcome.checkoutFailed)
              else
                let s2 := { st.2 with branch := t }
                if st.1 then
                  let pp := popStash env.popOk s2
                  if pp.1 then
                    (tr0 ++ [Act.checkout t, Act.stashPop], pp.2,
                      BOutcome.switched)
                  else
                    (tr0 ++ [Act.checkout t, Act.stashPop], pp.2,
                      BOutcome.popConflict)
                else (tr0 ++ [Act.checkout t], s2, BOutcome.switched)
        else if act = "update" then
          if !env.fetchOk then ([], s0, BOutcome.updateFailed)
          else if !env.pullOk then
            ([Act.fetch "origin main"], s0, BOutcome.updateFailed)
          else ([Act.fetch "origin main", Act.pull "origin main"], s0,
            BOutcome.updated)
        else if act = "create" then
          match env.newName with
          | none => ([], s0, BOutcome.canceledSelect)
          | some n =>
              if env.createOk then
                ([Act.checkoutNew n], { s0 with branch := n },
                  BOutcome.created)
              else ([], s0, BOutcome.createFailed)
        else if act = "pr" then
          ([Act.openPr (prUrl env.originUrl s0.branch)], s0,
            BOutcome.prOpened)
        else ([], s0, BOutcome.noAction)

def c3FailEnv : BranchEnv :=
  ⟨true, some "switch", some "feat", false, false, true, true, true, none,
    true, "git@github.com:me/repo.git"⟩

def c3FailState : BranchState :=
  ⟨"main", true, ["older stash"]⟩

/-- Counterexample to C3 as stated: a branch switch started with a dirty
working tree in which the underlying `git stash push` fails.  `git.stash`
invokes it with `ignore = true`, so the failure is swallowed and no
stash is created; when the checkout then also fails, no stash remains
for manual recovery (the stash stack is exactly what it was before and
no auto-stash entry exists on it), the tree is still dirty. -/
theorem branch_switch_stash_not_created_counterexample :
    c3FailState.dirty = true ∧
    (flowBranch c3FailEnv c3FailState).2.2 = BOutcome.checkoutFailed ∧
    (flowBranch c3FailEnv c3FailState).2.1.stashes =
      c3FailState.stashes ∧
    autoStashMsg ∉ (flowBranch c3FailEnv c3FailState).2.1.stashes ∧
    (flowBranch c3FailEnv c3FailState).2.1.dirty = true := by
  decide

/-- C3 as amended: for a branch switch started with a dirty working tree
whose underlying `git stash push` succeeds, a stash is created before
the checkout and popped after it; if the checkout fails no pop is
attempted, the branch is unchanged and the stash remains on the stack
for manual recovery.  (When the stash push fails, `git.stash` swallows
the failure and no stash is created — see the counterexample.) -/
theorem branch_switch_stash_discipline (env : BranchEnv)
    (s0 : BranchState) (t : String)
    (h1 : env.isRepo = true) (h2 : env.action = some "switch")
    (h3 : env.target = some t) (h4 : s0.dirty = true)
    (h5 : env.stashPushOk = true) :
    (env.checkoutOk = true →
      (flowBranch env s0).1 =
        [Act.stashPush autoStashMsg, Act.checkout t, Act.stashPop]) ∧
    (env.checkoutOk = false →
      (flowBranch env s0).1 = [Act.stashPush autoStashMsg] ∧
      (flowBranch env s0).2.1.stashes = autoStashMsg :: s0.stashes ∧
      (flowBranch env s0).2.1.branch = s0.branch) := by
  constructor
  · intro hc
    cases hpop : env.popOk <;>
      simp [flowBranch, h1, h2, h3, h4, h5, hc, hpop, autoStash, popStash]
  · intro hc
    simp [flowBranch, h1, h2, h3, h4, h5, hc, autoStash]

def c3Env : BranchEnv :=
  ⟨true, some "switch", some "feat", true, false, true, true, true, none,
    true, "git@github.com:me/repo.git"⟩

def c3State : BranchState :=
  ⟨"main", true, ["older stash"]⟩

/-- Witness for the amended C3: a dirty switch whose stash push succeeds
and whose checkout fails keeps the stash. -/
theorem branch_switch_stash_discipline_witness :
    (flowBranch c3Env c3State).1 = [Act.stashPush autoStashMsg] ∧
    (flowBranch c3Env c3State).2.1.stashes =
      autoStashMsg :: c3State.stashes ∧
    (flowBranch c3Env c3State).2.1.branch = c3State.branch :=
  (branch_switch_stash_discipline c3Env c3State "feat"
    (by decide) (by decide) (by decide) (by decide) (by decide)).2
    (by decide)

/-! ## The sync flow (src/index.js lines 460-500) -/

structure SyncEnv where
  isRepo : Bool
  fetchOk : Bool
  curr : String
  remoteExists : Bool
  pullOk : Bool
  upstreamOk : Bool
deriving DecidableEq

inductive SOutcome where
  | notRepo
  | noRemoteBranch
  | synced
  | syncFailed
deriving DecidableEq

/-- `flowSync`: fetch `origin` first, then check `git ls-remote --heads`
for the current branch; without a matching remote branch report and
stop; otherwise pull and (best-effort) fix the upstream config. -/
def flowSync (env : SyncEnv) : List Act × SOutcome :=
  if !env.isRepo then ([], SOutcome.notRepo)
  else if !env.fetchOk then ([], SOutcome.syncFailed)
  else if !env.remoteExists then
    ([Act.fetch "origin"], SOutcome.noRemoteBranch)
  else if !env.pullOk then ([Act.fetch "origin"], SOutcome.syncFailed)
  else
    ([Act.fetch "origin", Act.pull env.curr, Act.setUpstream env.curr],
      SOutcome.synced)

/-- Counterexample to C6 as stated: when no matching remote branch
exists the tool does report it and pulls nothing, but a fetch of
`origin` has already been performed before the check, so "performs no
fetch" is false. -/
theorem sync_no_remote_fetch_counterexample :
    (flowSync ⟨true, true, "feat", false, true, true⟩).2 =
      SOutcome.noRemoteBranch ∧
    Act.fetch "origin" ∈ (flowSync ⟨true, true, "feat", false, true, true⟩).1 := by
  decide

/-- C6 as amended: if no remote branch matching the current local branch
exists, the tool reports this and performs no pull; the only command run
is the initial fetch of `origin`, which happens before the check. -/
theorem sync_no_remote_no_pull (env : SyncEnv)
    (h1 : env.isRepo = true) (h2 : env.fetchOk = true)
    (h3 : env.remoteExists = false) :
    flowSync env = ([Act.fetch "origin"], SOutcome.noRemoteBranch) ∧
    ∀ b, Act.pull b ∉ (flowSync env).1 := by
  have he : flowSync env = ([Act.fetch "origin"], SOutcome.noRemoteBranch) := by
    rw [flowSync, if_neg (by simp [h1]), if_neg (by simp [h2]),
      if_pos (by simp [h3])]
  refine ⟨he, ?_⟩
  intro b
  rw [he]
  simp

/-- Witness for the amended C6 at a concrete environment. -/
theorem sync_no_remote_no_pull_witness :
    flowSync ⟨true, true, "feat", false, true, true⟩ =
      ([Act.fetch "origin"], SOutcome.noRemoteBranch) ∧
    ∀ b, Act.pull b ∉ (flowSync ⟨true, true, "feat", false, true, true⟩).1 :=
  sync_no_remote_no_pull ⟨true, true, "feat", false, true, true⟩
    (by decide) (by decide) (by decide)

/-! ## The `sh` wrapper and the git facade's error reporting
(src/index.js lines 26-34, 113-127, 142-150)

`ShEnv` maps a command line to the underlying result: the (trimmed)
stdout on success, or the error text (`e.stderr || e.message`) on
failure.  Each facade operation is modelled together with the list of
commands it invokes, so that "never retries" is the statement that no
underlying command occurs twice in that list. -/

/-- Result of one external command. -/
inductive ShRes where
  | ok (out : String)
  | error (msg : String)
deriving DecidableEq

abbrev ShEnv := String → ShRes

/-- `sh(cmd, ignore)`: on failure, throw the error text unless `ignore`
is set, in which case return `""`. -/
def sh (env : ShEnv) (cmd : String) (ignore : Bool) : ShRes :=
  match env cmd with
  | ShRes.ok out => ShRes.ok out
  | ShRes.error e => if ignore then ShRes.ok "" else ShRes.error e

/-- The string value of an `ignore`d `sh` call (never throws). -/
def shIgnored (env : ShEnv) (cmd : String) : String :=
  match sh env cmd true with
  | ShRes.ok out => out
  | ShRes.error _ => ""

def isRepoCmd : String := "git rev-parse --is-inside-work-tree"

def statusCmd : String := "git status --porcelain"

def autoStashCmd : String := "git stash push -m \"Otto Auto-Switch\""

def stashSaveCmd (msg : String) : String :=
  String.mk ("git stash push -m \"".data ++ (msg.data ++ ['"']))

def popCmd : String := "git stash pop"

/-- `git.stash` (lines 113-119): the auto-stash for switching.  The
underlying `git stash push` is invoked with `ignore = true`, so its
result is discarded and the helper reports `true` whenever the tree was
dirty. -/
def gitStashSh (env : ShEnv) : List String × Bool :=
  if shIgnored env isRepoCmd ≠ "true" then ([isRepoCmd], false)
  else if (shIgnored env statusCmd).length = 0 then
    ([isRepoCmd, statusCmd], false)
  else
    ([isRepoCmd, statusCmd, autoStashCmd], true)

/-- `git.stashSave` (lines 122-127): the manual stash; the underlying
stash push propagates its error text. -/
def gitStashSaveSh (env : ShEnv) (msg : String) : List String × ShRes :=
  if (shIgnored env statusCmd).length = 0 then
    ([statusCmd], ShRes.error "No local changes to stash")
  else ([statusCmd, stashSaveCmd msg], sh env (stashSaveCmd msg) false)

/-- `git.pop` (lines 142-150): the error is caught and turned into a
bare `false` (the error text is discarded). -/
def gitPopSh (env : ShEnv) : List String × Bool :=
  if shIgnored env isRepoCmd ≠ "true" then ([isRepoCmd], false)
  else
    match sh env popCmd false with
    | ShRes.ok _ => ([isRepoCmd, popCmd], true)
    | ShRes.error _ => ([isRepoCmd, popCmd], false)

/-- A mutating command invoked directly through `sh` with error
propagation (checkout, reset, commit, tag delete, push, branch create in
the flows). -/
def shRun (env : ShEnv) (cmd : String) : List String × ShRes :=
  ([cmd], sh env cmd false)

def c8Env : ShEnv := fun cmd =>
  if cmd = isRepoCmd then ShRes.ok "true"
  else if cmd = statusCmd then ShRes.ok " M src/a.js"
  else ShRes.error "fatal: stash failed"

/-- Counterexample to C8 as stated: in a dirty repository whose
`git stash push` fails, the auto-stash facade `git.stash` neither fully
succeeds (the underlying command errored, no stash was created) nor
signals the failure — it swallows the error text and reports `true`. -/
theorem facade_autostash_swallows_failure_counterexample :
    c8Env autoStashCmd = ShRes.error "fatal: stash failed" ∧
    gitStashSh c8Env = ([isRepoCmd, statusCmd, autoStashCmd], true) := by
  decide

theorem statusCmd_ne_stashSaveCmd (msg : String) :
    statusCmd ≠ stashSaveCmd msg := by
  intro h
  have hd : statusCmd.data =
      "git stash push -m \"".data ++ (msg.data ++ ['"']) :=
    congrArg String.data h
  have e2 : (statusCmd.data)[7]? = some 't' := by decide
  rw [hd, List.getElem?_append, if_pos (by decide)] at e2
  exact absurd e2 (by decide)

/-- C8 as amended: `sh` with error propagation reports exactly the
underlying command's result (success, or failure with the underlying
error text) — this covers checkout, reset, commit, tag delete, push and
branch create — and so does the manual stash save on a dirty tree; no
facade operation invokes its underlying mutating command more than once
(no retries).  However, the auto-stash `git.stash` reports success on a
dirty tree regardless of the underlying stash push's result, and
`git.pop` signals failure only as a boolean, discarding the error
text. -/
theorem facade_error_reporting (env : ShEnv) (msg cmd : String) :
    (sh env cmd false = env cmd) ∧
    ((shIgnored env statusCmd).length ≠ 0 →
      (gitStashSaveSh env msg).2 = env (stashSaveCmd msg)) ∧
    (shIgnored env isRepoCmd = "true" →
      (shIgnored env statusCmd).length ≠ 0 → (gitStashSh env).2 = true) ∧
    (shIgnored env isRepoCmd = "true" →
      ((gitPopSh env).2 = true ↔ ∃ o, env popCmd = ShRes.ok o)) ∧
    ((shRun env cmd).1.count cmd ≤ 1 ∧
     (gitStashSh env).1.count autoStashCmd ≤ 1 ∧
     (gitStashSaveSh env msg).1.count (stashSaveCmd msg) ≤ 1 ∧
     (gitPopSh env).1.count popCmd ≤ 1) := by
  have hsh : sh env cmd false = env cmd := by
    rw [sh]
    cases env cmd <;> rfl
  refine ⟨hsh, ?_, ?_, ?_, ?_, ?_, ?_, ?_⟩
  · intro hd
    rw [gitStashSaveSh, if_neg (by simpa using hd)]
    show sh env (stashSaveCmd msg) false = env (stashSaveCmd msg)
    rw [sh]
    cases env (stashSaveCmd msg) <;> rfl
  · intro hr hd
    rw [gitStashSh, if_neg (by simp [hr]), if_neg (by simpa using hd)]
  · intro hr
    rw [gitPopSh, if_neg (by simp [hr])]
    cases hp : env popCmd with
    | ok o =>
        rw [sh, hp]
        exact ⟨fun _ => ⟨o, rfl⟩, fun _ => rfl⟩
    | error e =>
        rw [sh, hp]
        simp only [Bool.false_eq_true, ite_false]
        constructor
        · intro hfalse
          exact absurd hfalse (by simp)
        · rintro ⟨o, ho⟩
          exact absurd ho (by simp)
  · simp [shRun, List.count_cons]
  · rw [gitStashSh]
    split
    · simp [List.count_cons, isRepoCmd, autoStashCmd]
    · split <;> decide
  · rw [gitStashSaveSh]
    split
    · simp [List.count_cons, statusCmd_ne_stashSaveCmd msg]
    · simp [List.count_cons, statusCmd_ne_stashSaveCmd msg]
  · rw [gitPopSh]
    split
    · decide
    · split <;> decide

/-- Witness for the amended C8: a dirty tree whose stash push fails
propagates the exact error text through `stashSave`, while the
auto-stash still reports success. -/
theorem facade_error_reporting_witness :
    (gitStashSaveSh c8Env "wip").2 = c8Env (stashSaveCmd "wip") ∧
    (gitStashSh c8Env).2 = true :=
  ⟨(facade_error_reporting c8Env "wip" popCmd).2.1 (by decide),
   (facade_error_reporting c8Env "wip" popCmd).2.2.1 (by decide)
     (by decide)⟩

end Otto
